import Mathlib

set_option autoImplicit false
set_option linter.unnecessarySeqFocus false

deriving instance DecidableEq for Except

namespace MongoDoc

/-- A BSON-like runtime value, modelling the Python values stored in a
document's `__dict__` and in MongoDB records (src/mongo_doc/mongo_doc.py).
`vNull` is Python `None`, `vDoc` a Python `dict`, `vId` a `bson.ObjectId`. -/
inductive Value where
  | vNull : Value
  | vBool : Bool → Value
  | vInt : Int → Value
  | vStr : String → Value
  | vId : Nat → Value
  | vList : List Value → Value
  | vDoc : List (String × Value) → Value

mutual

/-- Structural equality of values, modelling Python `==` on the value kinds
the library stores. -/
def Value.beq : Value → Value → Bool
  | .vNull, .vNull => true
  | .vBool a, .vBool b => a == b
  | .vInt a, .vInt b => a == b
  | .vStr a, .vStr b => a == b
  | .vId a, .vId b => a == b
  | .vList a, .vList b => Value.beqList a b
  | .vDoc a, .vDoc b => Value.beqFields a b
  | _, _ => false

/-- Pointwise equality of value lists. -/
def Value.beqList : List Value → List Value → Bool
  | [], [] => true
  | x :: xs, y :: ys => Value.beq x y && Value.beqList xs ys
  | _, _ => false

/-- Pointwise equality of key-value pair lists. -/
def Value.beqFields : List (String × Value) → List (String × Value) → Bool
  | [], [] => true
  | (k, v) :: xs, (l, w) :: ys => k == l && Value.beq v w && Value.beqFields xs ys
  | _, _ => false

end

mutual

theorem Value.beq_iff : ∀ a b : Value, Value.beq a b = true ↔ a = b
  | .vNull, b => by cases b <;> simp [Value.beq]
  | .vBool a, b => by cases b <;> simp [Value.beq]
  | .vInt a, b => by cases b <;> simp [Value.beq]
  | .vStr a, b => by cases b <;> simp [Value.beq]
  | .vId a, b => by cases b <;> simp [Value.beq]
  | .vList a, b => by
      cases b <;> simp [Value.beq]
      exact Value.beqList_iff a _
  | .vDoc a, b => by
      cases b <;> simp [Value.beq]
      exact Value.beqFields_iff a _

theorem Value.beqList_iff : ∀ a b : List Value, Value.beqList a b = true ↔ a = b
  | [], b => by cases b <;> simp [Value.beqList]
  | x :: xs, [] => by simp [Value.beqList]
  | x :: xs, y :: ys => by
      simp [Value.beqList, Value.beq_iff x y, Value.beqList_iff xs ys]

theorem Value.beqFields_iff :
    ∀ a b : List (String × Value), Value.beqFields a b = true ↔ a = b
  | [], b => by cases b <;> simp [Value.beqFields]
  | x :: xs, [] => by simp [Value.beqFields]
  | (k, v) :: xs, (l, w) :: ys => by
      simp [Value.beqFields, Value.beq_iff v w, Value.beqFields_iff xs ys, Prod.ext_iff]

end

instance : DecidableEq Value := fun a b => decidable_of_iff _ (Value.beq_iff a b)

theorem Value.beq_refl (v : Value) : Value.beq v v = true := (Value.beq_iff v v).mpr rfl

/-- The field mapping of a document instance: the Python `__dict__` of a
`Document` (also a stored MongoDB record, and a query filter).  Python dicts
iterate in insertion order, which a `List` of pairs preserves; well-formed
dicts have no duplicate keys (`fkeysNodup` below). -/
abbrev Fields := List (String × Value)

/-- Dict lookup: `d.get(k)` / `d[k]`, returning the first binding of `k`. -/
def fget? : Fields → String → Option Value
  | [], _ => none
  | (l, v) :: rest, k => if l == k then some v else fget? rest k

/-- Dict membership: `k in d`. -/
def fhas (fs : Fields) (k : String) : Bool := (fget? fs k).isSome

/-- `self.__dict__.get(name)`: an absent key reads as Python `None`. -/
def pyGet (fs : Fields) (k : String) : Value := (fget? fs k).getD Value.vNull

/-- Python `v is None` on a stored value. -/
def isNull : Value → Bool
  | .vNull => true
  | _ => false

/-- Dict assignment `d[k] = v`: replaces the binding in place if the key is
present (Python dicts keep the original key position), else appends. -/
def fset : Fields → String → Value → Fields
  | [], k, v => [(k, v)]
  | (l, w) :: rest, k, v =>
      if l == k then (k, v) :: rest else (l, w) :: fset rest k v

/-- Dict deletion `del d[k]` (well-formed dicts bind a key at most once). -/
def fdel : Fields → String → Fields
  | [], _ => []
  | (l, w) :: rest, k => if l == k then fdel rest k else (l, w) :: fdel rest k

/-- Dict update `d.update(other)`: assigns each binding of `other` in order. -/
def fupdate (fs : Fields) (upd : Fields) : Fields :=
  upd.foldl (fun acc p => fset acc p.1 p.2) fs

/-- The keys of a dict are pairwise distinct. -/
def fkeysNodup (fs : Fields) : Prop := (fs.map Prod.fst).Nodup

instance (fs : Fields) : Decidable (fkeysNodup fs) := List.nodupDecidable _

/-- Python runtime types the library's schemas mention (`str`, `int`, ...). -/
inductive PyType where
  | tStr : PyType
  | tInt : PyType
  | tBool : PyType
  | tList : PyType
  | tDict : PyType
deriving DecidableEq

/-- Python `isinstance(v, t)`.  Note `bool` is a subclass of `int` in Python,
so a boolean value is an instance of `int`. -/
def isinstance : Value → PyType → Bool
  | .vStr _, .tStr => true
  | .vInt _, .tInt => true
  | .vBool _, .tInt => true
  | .vBool _, .tBool => true
  | .vList _, .tList => true
  | .vDoc _, .tDict => true
  | _, _ => false

/-- The exceptions raised by src/mongo_doc/mongo_doc.py, by meaning:
`collectionError` is `MongoDBCollectionError` (save with no collection),
`fieldInvalid` is `ValueError "Field NAME is invalid"` (custom validator),
`requiredMissing` is `ValueError "Required field NAME is missing"`,
`typeMismatch` is `TypeError "Field NAME has invalid type ..."`,
`isinstanceArg` is the `TypeError` Python itself raises when a schema rule
has no `type` key and `isinstance(v, None)` is evaluated,
`unknownField` is `MongoFieldError "Field NAME is not in the schema"`,
`missingDocument` is `ValueError "Document with _id ID does not exist"`. -/
inductive MErr where
  | collectionError : MErr
  | fieldInvalid : String → MErr
  | requiredMissing : String → MErr
  | typeMismatch : String → MErr
  | isinstanceArg : String → MErr
  | unknownField : String → MErr
  | missingDocument : Value → MErr
deriving DecidableEq

/-- One schema rule, a Python dict like `{'type': str, 'required': True,
'validator': f}`: `type?` is `field_schema.get('type')`, `required` is
`field_schema.get('required', False)`, `validator?` is the optional custom
predicate (`'validator' in field_schema`).  A nested `schema` entry is
carried only through the custom validator, as in the source. -/
structure FieldSchema where
  type? : Option PyType
  required : Bool
  validator? : Option (Value → Bool)

/-- A schema: field name to rule, in declaration (dict insertion) order. -/
abbrev Schema := List (String × FieldSchema)

/-- The required-field and runtime-type checks of `_validate` (after the
custom-validator check), in source order: required-and-null first, then
`isinstance` for non-null values. -/
def requiredTypeCheck (name : String) (fs : FieldSchema) (v : Value) :
    Except MErr Unit :=
  if fs.required && isNull v then .error (.requiredMissing name)
  else if !(isNull v) then
    match fs.type? with
    | some t => if isinstance v t then .ok () else .error (.typeMismatch name)
    | none => .error (.isinstanceArg name)
  else .ok ()

/-- Checks one schema rule against one field value exactly as the body of the
first loop of `_validate` (mongo_doc.py lines 269-283): custom validator
first, then required, then type. -/
def fieldCheck (name : String) (fs : FieldSchema) (v : Value) :
    Except MErr Unit :=
  match fs.validator? with
  | some f => if f v then requiredTypeCheck name fs v else .error (.fieldInvalid name)
  | none => requiredTypeCheck name fs v

/-- The first loop of `_validate`: each schema-declared field in order, the
instance's value read with `self.__dict__.get` (absent reads as null). -/
def validateFields : Schema → Fields → Except MErr Unit
  | [], _ => .ok ()
  | (name, fs) :: rest, doc =>
    match fieldCheck name fs (pyGet doc name) with
    | .ok _ => validateFields rest doc
    | .error e => .error e

/-- `field_name in self.schema`. -/
def schemaHasKey (sch : Schema) (k : String) : Bool := sch.any (fun p => p.1 == k)

/-- The second loop of `_validate`: every instance field other than `_id`
must be a schema key, else `MongoFieldError`. -/
def checkUnknown (sch : Schema) : Fields → Except MErr Unit
  | [] => .ok ()
  | (k, _) :: rest =>
    if k != "_id" && !(schemaHasKey sch k) then .error (.unknownField k)
    else checkUnknown sch rest

/-- `_validate(self)` (mongo_doc.py lines 264-288): the per-rule loop, then
the unknown-field loop. -/
def validate (sch : Schema) (doc : Fields) : Except MErr Unit :=
  match validateFields sch doc with
  | .ok _ => checkUnknown sch doc
  | .error e => .error e

/-- A MongoDB collection: the stored records in insertion order, plus the
generator state for fresh ObjectIds (modelled as increasing numbers). -/
structure Collection where
  docs : List Fields
  nextId : Nat
deriving DecidableEq

/-- One equality clause `{k: v}` of a filter against a record.  MongoDB
equality: a `null` filter value also matches a record lacking the field. -/
def matchesField (r : Fields) (k : String) (v : Value) : Bool :=
  match fget? r k with
  | some w => Value.beq w v
  | none => Value.beq v .vNull

/-- A record matches a filter when every clause matches. -/
def matchesFilter (r : Fields) (filt : Fields) : Bool :=
  filt.all (fun p => matchesField r p.1 p.2)

/-- `collection.find_one(filt)`: the first matching record, if any.  (The
projections the source passes only restrict the returned fields, which the
model reads directly off the full record.) -/
def find_one (c : Collection) (filt : Fields) : Option Fields :=
  c.docs.find? (fun r => matchesFilter r filt)

/-- `collection.find(filt)`: all matching records in order. -/
def findAll (c : Collection) (filt : Fields) : List Fields :=
  c.docs.filter (fun r => matchesFilter r filt)

/-- `collection.insert_one(payload)`: stores the payload with a freshly
generated `_id` (pymongo sets `payload['_id']`) and returns the new id. -/
def insert_one (c : Collection) (payload : Fields) : Collection × Value :=
  (⟨c.docs ++ [fset payload "_id" (.vId c.nextId)], c.nextId + 1⟩, .vId c.nextId)

/-- Applies a `$set` update to the first record matching the filter,
returning the new record list and the matched count. -/
def updateFirstMatching : List Fields → Fields → Fields → List Fields × Nat
  | [], _, _ => ([], 0)
  | r :: rest, filt, upd =>
    if matchesFilter r filt then (fupdate r upd :: rest, 1)
    else
      let p := updateFirstMatching rest filt upd
      (r :: p.1, p.2)

/-- `collection.update_one(filt, {'$set': upd})`: result plus matched count. -/
def update_one (c : Collection) (filt upd : Fields) : Collection × Nat :=
  let p := updateFirstMatching c.docs filt upd
  (⟨p.1, c.nextId⟩, p.2)

/-- `collection.delete_many(filt)`. -/
def delete_many (c : Collection) (filt : Fields) : Collection :=
  ⟨c.docs.filter (fun r => !(matchesFilter r filt)), c.nextId⟩

/-- A record is well-identified when its `_id` is a generated id below the
collection's generator state. -/
def idOk (n : Nat) (r : Fields) : Bool :=
  match fget? r "_id" with
  | some (.vId k) => decide (k < n)
  | _ => false

/-- Collection well-formedness: every stored record carries a generated
`_id` below `nextId` (true of every collection built by `insert_one` from
empty, since ids are handed out in increasing order). -/
def Collection.wfb (c : Collection) : Bool := c.docs.all (idOk c.nextId)

/-- `Document.__init__(self, *args, **kwargs)` (mongo_doc.py lines 72-91):
sets `self._id = None` unless `'_id'` is in the keyword arguments, then
populates `self.__dict__` from the first positional argument when it is a
dict (a non-dict positional such as `None` is ignored, modelled by `none`)
and otherwise from the keyword arguments.  Embedded `Document` values are
flattened to their `__dict__`, which in the model are already plain `vDoc`
values, so the flattening step is the identity here. -/
def docInit (arg? : Option Fields) (kwargs : Fields) : Fields :=
  let base : Fields := if fhas kwargs "_id" then [] else [("_id", Value.vNull)]
  let asDict := match arg? with
    | some d => d
    | none => kwargs
  fupdate base asDict

/-- `self._id`, the instance's identity attribute. -/
def docId (doc : Fields) : Value := pyGet doc "_id"

/-- The per-field test of `Document._has_changed` (lines 99-104): the field
counts as changed only when `find_one({'_id': self._id})` returns a record,
the key is present in it, and the stored value differs. -/
def changedPred (c : Collection) (idv : Value) (k : String) (v : Value) : Bool :=
  match find_one c [("_id", idv)] with
  | none => false
  | some r =>
    match fget? r k with
    | none => false
    | some w => !(Value.beq w v)

/-- `Document._has_changed(self)` (mongo_doc.py lines 93-105), the
`changedFields()` operation of the spec: the in-memory fields other than
`_id` that pass `changedPred`, in insertion order. -/
def hasChanged (c : Collection) (doc : Fields) : Fields :=
  doc.filter (fun p => p.1 != "_id" && changedPred c (docId doc) p.1 p.2)

/-- `Document.is_saved(self)` (lines 107-112): true iff `_has_changed` is
empty. -/
def is_saved (c : Collection) (doc : Fields) : Bool := (hasChanged c doc).isEmpty

/-- The store-facing part of `Document.save` (lines 124-140), after the
collection and schema checks: insert when `self._id is None`, else the
change-detection / partial-update path.  Returns the (possibly mutated)
instance or the raised error, together with the collection afterwards. -/
def saveCore (c : Collection) (doc : Fields) : Except MErr Fields × Collection :=
  if isNull (docId doc) then
    let payload := fdel doc "_id"
    let r := insert_one c payload
    (.ok (fset payload "_id" r.2), r.1)
  else
    let changed := hasChanged c doc
    if changed.isEmpty then (.ok doc, c)
    else
      let u := update_one c [("_id", docId doc)] changed
      if u.2 == 0 then (.error (.missingDocument (docId doc)), u.1)
      else (.ok doc, u.1)

/-- `Document.save(self)` (lines 114-140) for a type with a live backing
collection: schema validation first (when a schema was declared), then
`saveCore`.  A validation error propagates with the store untouched. -/
def save (schema? : Option Schema) (c : Collection) (doc : Fields) :
    Except MErr Fields × Collection :=
  match schema? with
  | none => saveCore c doc
  | some sch =>
    match validate sch doc with
    | .ok _ => saveCore c doc
    | .error e => (.error e, c)

/-- `Document.save` including the `self.collection is None` check (lines
119-120): with no backing collection it raises `MongoDBCollectionError`. -/
def saveWithClass (coll? : Option Collection) (schema? : Option Schema)
    (doc : Fields) : Except MErr Fields × Option Collection :=
  match coll? with
  | none => (.error .collectionError, none)
  | some c =>
    let r := save schema? c doc
    (r.1, some r.2)

/-- The keyword/map duality of `Document.find` (lines 200-203) and the `d`
computed by `Document.delete` (lines 223-226): when exactly one keyword is
supplied and its value is a dict, that dict is the filter, else the keyword
pairs are. -/
def queryFilter (kwargs : Fields) : Fields :=
  match kwargs with
  | [(_, .vDoc d)] => d
  | _ => kwargs

/-- The records `Document.find(**kwargs)` (lines 193-204) retrieves (each is
then wrapped via `cls(item)` into a `ResultList`). -/
def findRecords (c : Collection) (kwargs : Fields) : List Fields :=
  findAll c (queryFilter kwargs)

/-- `Document.delete(cls, **kwargs)` (lines 216-227): the source computes
`d = queryFilter kwargs` but then calls `cls.collection.delete_many(kwargs)`
with the raw keyword dict, ignoring `d`. -/
def deleteMatching (c : Collection) (kwargs : Fields) : Collection :=
  delete_many c kwargs

/-- Hex-digit test for `bson.ObjectId` string validation. -/
def isHexChar (ch : Char) : Bool :=
  ch.isDigit || (("a" : String).front ≤ ch && ch ≤ ("f" : String).front)
    || (("A" : String).front ≤ ch && ch ≤ ("F" : String).front)

/-- `bson.ObjectId(s)` succeeds exactly on 24-character hex strings (the
12-byte form does not arise for string input in this API). -/
def isValidObjectId (s : String) : Bool :=
  s.length == 24 && s.toList.all isHexChar

/-- Numeric value of a hex digit. -/
def hexVal (ch : Char) : Nat :=
  if ch.isDigit then ch.toNat - 48
  else if ("a" : String).front ≤ ch then ch.toNat - 87
  else ch.toNat - 55

/-- The ObjectId denoted by a valid hex string, as a model id value. -/
def hexToNat (s : String) : Nat :=
  s.toList.foldl (fun acc ch => acc * 16 + hexVal ch) 0

/-- `Document.get_by_id(cls, _id)` (mongo_doc.py lines 163-173): parses the
string as an ObjectId; on `bson.errors.InvalidId` returns `None` (`none`),
otherwise returns `cls(find_one({'_id': oid}))` — note the constructor is
applied even when `find_one` returns `None`. -/
def get_by_id (c : Collection) (s : String) : Option Fields :=
  if isValidObjectId s then
    some (docInit (find_one c [("_id", .vId (hexToNat s))]) [])
  else none

/-- `Document.insert_many(cls, items)` (lines 175-183): `cls(item).save()`
for each item in order; the first raised error aborts the loop, leaving the
store as the earlier iterations made it. -/
def insert_many (schema? : Option Schema) :
    Collection → List Fields → Except MErr Unit × Collection
  | c, [] => (.ok (), c)
  | c, item :: rest =>
    match save schema? c (docInit (some item) []) with
    | (.ok _, c') => insert_many schema? c' rest
    | (.error e, c') => (.error e, c')

/-- The store effect of saving one fresh (id-less) item: inserting its
fields (identity stripped) with a generated id. -/
def insertPlain (c : Collection) (ps : List Fields) : Collection :=
  ps.foldl (fun acc p => (insert_one acc (fdel (docInit (some p) []) "_id")).1) c

/-- The instance passes whatever validation its type declares. -/
def validatesOk (schema? : Option Schema) (doc : Fields) : Prop :=
  ∀ sch, schema? = some sch → validate sch doc = .ok ()

/-- Outcome of `init_db` (mongo_doc.py lines 342-361): success, the
`MongoDBConnectionError` raised from the last low-level failure (its cause),
or the `NameError` Python would raise at line 361 when `retries` is zero and
`client` was never bound. -/
inductive ConnOutcome (ε : Type) where
  | connected : ConnOutcome ε
  | connError : ε → ConnOutcome ε
  | nameError : ConnOutcome ε
deriving DecidableEq

/-- Observable trace of one `init_db` call: how many connection attempts ran,
the `time.sleep` durations in order, and the outcome. -/
structure ConnTrace (ε : Type) where
  attempts : Nat
  sleeps : List Nat
  outcome : ConnOutcome ε
deriving DecidableEq

/-- The retry loop of `init_db` from attempt index `i` with `rem` loop
iterations left: `att j = none` means attempt `j` connects, `att j = some e`
that it raises `ServerSelectionTimeoutError e`.  On the last allowed
iteration a failure raises; otherwise the loop sleeps `delay ** i` and
retries. -/
def initDbGo {ε : Type} (att : Nat → Option ε) (delay : Nat) :
    Nat → Nat → ConnTrace ε
  | _, 0 => ⟨0, [], .nameError⟩
  | i, rem + 1 =>
    match att i with
    | none => ⟨1, [], .connected⟩
    | some e =>
      if rem == 0 then ⟨1, [], .connError e⟩
      else
        let t := initDbGo att delay (i + 1) rem
        ⟨t.attempts + 1, delay ^ i :: t.sleeps, t.outcome⟩

/-- `init_db(connection_str, database, retries, retry_delay)` (lines
342-361), abstracted over the outcome of each low-level connection
attempt. -/
def init_db {ε : Type} (att : Nat → Option ε) (retries delay : Nat) :
    ConnTrace ε :=
  initDbGo att delay 0 retries

theorem fget?_eq_none_iff (fs : Fields) (k : String) :
    fget? fs k = none ↔ ∀ p ∈ fs, p.1 ≠ k := by
  induction fs with
  | nil => simp [fget?]
  | cons p rest ih =>
    obtain ⟨l, v⟩ := p
    by_cases h : l = k <;> simp [fget?, h, ih]

theorem fget?_fset_self (fs : Fields) (k : String) (v : Value) :
    fget? (fset fs k v) k = some v := by
  induction fs with
  | nil => simp [fset, fget?]
  | cons p rest ih =>
    obtain ⟨l, w⟩ := p
    by_cases h : l = k <;> simp [fset, h, fget?, ih]

theorem fget?_fset_other (fs : Fields) (k k' : String) (v : Value)
    (h : k' ≠ k) : fget? (fset fs k v) k' = fget? fs k' := by
  have h2 : ¬(k = k') := fun hh => h hh.symm
  induction fs with
  | nil => simp [fset, fget?, h2]
  | cons p rest ih =>
    obtain ⟨l, w⟩ := p
    by_cases hl : l = k
    · subst hl
      simp [fset, fget?, h2]
    · by_cases hl' : l = k' <;> simp [fset, hl, fget?, hl', ih, h]

theorem fset_eq_append_of_absent (fs : Fields) (k : String) (v : Value)
    (h : fget? fs k = none) : fset fs k v = fs ++ [(k, v)] := by
  induction fs with
  | nil => simp [fset]
  | cons p rest ih =>
    obtain ⟨l, w⟩ := p
    rw [fget?] at h
    by_cases hl : l = k
    · simp [hl] at h
    · simp [hl] at h
      simp [fset, hl, ih h]

theorem fdel_sublist (fs : Fields) (k : String) : List.Sublist (fdel fs k) fs := by
  induction fs with
  | nil => simp [fdel]
  | cons p rest ih =>
    obtain ⟨l, w⟩ := p
    by_cases hl : l = k
    · simpa [fdel, hl] using List.Sublist.cons (l, w) ih
    · simpa [fdel, hl] using List.Sublist.cons₂ (l, w) ih

theorem fget?_fdel_self (fs : Fields) (k : String) :
    fget? (fdel fs k) k = none := by
  induction fs with
  | nil => simp [fdel, fget?]
  | cons p rest ih =>
    obtain ⟨l, w⟩ := p
    by_cases hl : l = k <;> simp [fdel, hl, fget?, ih]

theorem fget?_fdel_other (fs : Fields) (k k' : String) (h : k' ≠ k) :
    fget? (fdel fs k) k' = fget? fs k' := by
  induction fs with
  | nil => simp [fdel]
  | cons p rest ih =>
    obtain ⟨l, w⟩ := p
    by_cases hl : l = k
    · simp [fdel, hl, fget?, show ¬(k = k') from fun hh => h hh.symm, ih]
    · by_cases hl' : l = k' <;> simp [fdel, hl, fget?, hl', ih, h]

theorem fkeysNodup_fdel (fs : Fields) (k : String) (h : fkeysNodup fs) :
    fkeysNodup (fdel fs k) :=
  List.Nodup.sublist (List.Sublist.map Prod.fst (fdel_sublist fs k)) h

theorem fget?_of_mem_nodup (fs : Fields) (k : String) (v : Value)
    (hnd : fkeysNodup fs) (hmem : (k, v) ∈ fs) : fget? fs k = some v := by
  induction fs with
  | nil => simp at hmem
  | cons p rest ih =>
    obtain ⟨l, w⟩ := p
    rw [fkeysNodup, List.map_cons, List.nodup_cons] at hnd
    rcases List.mem_cons.mp hmem with heq | htl
    · injection heq with hk hv
      subst hk
      subst hv
      simp [fget?]
    · have hkl : ¬(l = k) := by
        intro hlk
        exact hnd.1 (hlk ▸ (List.mem_map.mpr ⟨(k, v), htl, rfl⟩))
      simp [fget?, hkl]
      exact ih hnd.2 htl

theorem fget?_fupdate_absent (fs upd : Fields) (k : String)
    (h : ∀ p ∈ upd, p.1 ≠ k) : fget? (fupdate fs upd) k = fget? fs k := by
  induction upd generalizing fs with
  | nil => simp [fupdate]
  | cons p rest ih =>
    obtain ⟨l, w⟩ := p
    have hl : l ≠ k := h (l, w) (List.mem_cons_self _ _)
    have hrest : ∀ q ∈ rest, q.1 ≠ k := fun q hq => h q (List.mem_cons_of_mem _ hq)
    show fget? (fupdate (fset fs l w) rest) k = fget? fs k
    rw [ih (fset fs l w) hrest, fget?_fset_other _ _ _ _ (fun hh => hl hh.symm)]

theorem matchesFilter_single (r : Fields) (k : String) (v : Value) :
    matchesFilter r [(k, v)] = matchesField r k v := by
  simp [matchesFilter]

theorem find?_id_null (ds : List Fields) (n : Nat)
    (h : ds.all (idOk n) = true) :
    ds.find? (fun r => matchesFilter r [("_id", Value.vNull)]) = none := by
  induction ds with
  | nil => rfl
  | cons r rest ih =>
    rw [List.all_cons, Bool.and_eq_true] at h
    have hm : matchesFilter r [("_id", Value.vNull)] = false := by
      rw [matchesFilter_single]
      unfold idOk at h
      unfold matchesField
      rcases hr : fget? r "_id" with _ | w
      · rw [hr] at h
        exact absurd h.1 (by simp)
      · rw [hr] at h
        cases w <;> simp [Value.beq] <;> simp at h
    rw [List.find?_cons, hm]
    exact ih h.2

theorem find?_id_fresh (ds : List Fields) (n : Nat) (r : Fields)
    (h : ds.all (idOk n) = true) (hr : fget? r "_id" = some (Value.vId n)) :
    (ds ++ [r]).find? (fun d => matchesFilter d [("_id", Value.vId n)]) = some r := by
  induction ds with
  | nil =>
    have : matchesFilter r [("_id", Value.vId n)] = true := by
      rw [matchesFilter_single]
      unfold matchesField
      rw [hr]
      simp [Value.beq]
    simp [List.find?_cons, this]
  | cons d rest ih =>
    rw [List.all_cons, Bool.and_eq_true] at h
    have hm : matchesFilter d [("_id", Value.vId n)] = false := by
      rw [matchesFilter_single]
      unfold idOk at h
      unfold matchesField
      rcases hd : fget? d "_id" with _ | w
      · rw [hd] at h
        exact absurd h.1 (by simp)
      · rw [hd] at h
        rcases w <;> simp at h <;> simp [Value.beq]
        omega
    rw [List.cons_append, List.find?_cons, hm]
    exact ih h.2

theorem hasChanged_eq_nil_of_pred (c : Collection) (doc : Fields)
    (h : ∀ p ∈ doc, p.1 ≠ "_id" → changedPred c (docId doc) p.1 p.2 = false) :
    hasChanged c doc = [] := by
  unfold hasChanged
  rw [List.filter_eq_nil_iff]
  intro p hp
  by_cases hk : p.1 = "_id"
  · simp [hk]
  · simp [hk, h p hp hk]

theorem hasChanged_eq_nil_of_find_none (c : Collection) (doc : Fields)
    (h : find_one c [("_id", docId doc)] = none) : hasChanged c doc = [] := by
  refine hasChanged_eq_nil_of_pred c doc (fun p _ _ => ?_)
  unfold changedPred
  rw [h]

theorem hasChanged_eq_nil_of_null_id (c : Collection) (doc : Fields)
    (hwf : c.wfb = true) (hid : docId doc = Value.vNull) :
    hasChanged c doc = [] := by
  refine hasChanged_eq_nil_of_find_none c doc ?_
  rw [hid]
  exact find?_id_null c.docs c.nextId hwf

theorem save_noop_of_unchanged (schema? : Option Schema) (c : Collection)
    (doc : Fields) (hval : validatesOk schema? doc)
    (hid : isNull (docId doc) = false) (hch : hasChanged c doc = []) :
    save schema? c doc = (.ok doc, c) := by
  have hcore : saveCore c doc = (.ok doc, c) := by
    unfold saveCore
    rw [hid, hch]
    simp
  cases schema? with
  | none => exact hcore
  | some sch => simp [save, hval sch rfl, hcore]

theorem save_insert_path (schema? : Option Schema) (c : Collection)
    (doc : Fields) (hval : validatesOk schema? doc)
    (hid : docId doc = Value.vNull) :
    save schema? c doc =
      (.ok (fset (fdel doc "_id") "_id" (Value.vId c.nextId)),
       ⟨c.docs ++ [fset (fdel doc "_id") "_id" (Value.vId c.nextId)], c.nextId + 1⟩) := by
  have hcore : saveCore c doc =
      (.ok (fset (fdel doc "_id") "_id" (Value.vId c.nextId)),
       ⟨c.docs ++ [fset (fdel doc "_id") "_id" (Value.vId c.nextId)], c.nextId + 1⟩) := by
    unfold saveCore
    rw [hid]
    simp [isNull, insert_one]
  cases schema? with
  | none => exact hcore
  | some sch => simp [save, hval sch rfl, hcore]

theorem fkeysNodup_insert_result (doc : Fields) (x : Value)
    (hnd : fkeysNodup doc) : fkeysNodup (fset (fdel doc "_id") "_id" x) := by
  have hpay : fget? (fdel doc "_id") "_id" = none := fget?_fdel_self doc "_id"
  rw [fset_eq_append_of_absent _ _ _ hpay]
  unfold fkeysNodup
  rw [List.map_append, List.nodup_append]
  refine ⟨fkeysNodup_fdel doc "_id" hnd, by simp, ?_⟩
  intro a ha hb
  simp at hb
  subst hb
  obtain ⟨p, hp, hpk⟩ := List.mem_map.mp ha
  exact ((fget?_eq_none_iff _ _).mp hpay p hp) hpk

theorem is_saved_after_insert (c : Collection) (doc : Fields)
    (hwf : c.wfb = true) (hnd : fkeysNodup doc) :
    is_saved
      ⟨c.docs ++ [fset (fdel doc "_id") "_id" (Value.vId c.nextId)], c.nextId + 1⟩
      (fset (fdel doc "_id") "_id" (Value.vId c.nextId)) = true := by
  have hid' : fget? (fset (fdel doc "_id") "_id" (Value.vId c.nextId)) "_id"
      = some (Value.vId c.nextId) := fget?_fset_self _ _ _
  have hnd' : fkeysNodup (fset (fdel doc "_id") "_id" (Value.vId c.nextId)) :=
    fkeysNodup_insert_result doc _ hnd
  have hdocId : docId (fset (fdel doc "_id") "_id" (Value.vId c.nextId))
      = Value.vId c.nextId := by
    unfold docId pyGet
    rw [hid']
    rfl
  have hfind :
      find_one
        ⟨c.docs ++ [fset (fdel doc "_id") "_id" (Value.vId c.nextId)], c.nextId + 1⟩
        [("_id", docId (fset (fdel doc "_id") "_id" (Value.vId c.nextId)))]
      = some (fset (fdel doc "_id") "_id" (Value.vId c.nextId)) := by
    rw [hdocId]
    unfold find_one
    exact find?_id_fresh c.docs c.nextId _ hwf hid'
  unfold is_saved
  rw [hasChanged_eq_nil_of_pred]
  · rfl
  · intro p hp hpk
    unfold changedPred
    rw [hfind]
    have hg : fget? (fset (fdel doc "_id") "_id" (Value.vId c.nextId)) p.1 = some p.2 :=
      fget?_of_mem_nodup _ p.1 p.2 hnd' (by simpa using hp)
    simp [hg, Value.beq_refl]

theorem changedPred_eq_true_iff (c : Collection) (idv : Value) (k : String)
    (v : Value) :
    changedPred c idv k v = true ↔
      ∃ r, find_one c [("_id", idv)] = some r ∧
        ∃ w, fget? r k = some w ∧ Value.beq w v = false := by
  unfold changedPred
  cases hfo : find_one c [("_id", idv)] with
  | none => simp
  | some r =>
    cases hg : fget? r k with
    | none => simp [hg]
    | some w => simp [hg]

/-- C1 (amended): `changedFields()` (`Document._has_changed`) returns exactly
the in-memory fields other than the identity that are present in the freshly
re-read stored record with a differing value.  A field absent from the stored
record is NOT reported as changed, and when the identity is null, or matches
no stored record, the result is empty — all fields are treated as unchanged,
not as changed. -/
theorem c1_changed_fields_characterization (c : Collection) (doc : Fields) :
    (∀ k v, (k, v) ∈ hasChanged c doc ↔
      ((k, v) ∈ doc ∧ k ≠ "_id" ∧
        ∃ r, find_one c [("_id", docId doc)] = some r ∧
          ∃ w, fget? r k = some w ∧ Value.beq w v = false))
    ∧ (find_one c [("_id", docId doc)] = none → hasChanged c doc = [])
    ∧ (docId doc = Value.vNull → Collection.wfb c = true →
        hasChanged c doc = []) := by
  refine ⟨?_, hasChanged_eq_nil_of_find_none c doc,
    fun hid hwf => hasChanged_eq_nil_of_null_id c doc hwf hid⟩
  intro k v
  constructor
  · intro hm
    rw [hasChanged, List.mem_filter, Bool.and_eq_true] at hm
    exact ⟨hm.1, by simpa using hm.2.1,
      (changedPred_eq_true_iff _ _ _ _).mp hm.2.2⟩
  · intro hm
    rw [hasChanged, List.mem_filter, Bool.and_eq_true]
    exact ⟨hm.1, by simpa using hm.2.1,
      (changedPred_eq_true_iff _ _ _ _).mpr hm.2.2⟩

/-- C1 counterexample: an instance with null identity and one ordinary field
`a`; the claim says `changedFields()` must treat all in-memory fields as
changed, but `_has_changed` returns the empty dict. -/
theorem c1_counterexample :
    docId [("_id", Value.vNull), ("a", Value.vInt 1)] = Value.vNull
    ∧ fget? [("_id", Value.vNull), ("a", Value.vInt 1)] "a" = some (Value.vInt 1)
    ∧ hasChanged ⟨[], 0⟩ [("_id", Value.vNull), ("a", Value.vInt 1)] = [] :=
  ⟨rfl, by decide, by decide⟩

/-- C1 witness: a persisted record whose stored `a` differs from the
in-memory `a` is reported changed; an instance whose identity matches no
record reports nothing. -/
theorem c1_witness :
    ("a", Value.vInt 2) ∈
      hasChanged ⟨[[("a", Value.vInt 1), ("_id", Value.vId 0)]], 1⟩
        [("_id", Value.vId 0), ("a", Value.vInt 2)]
    ∧ hasChanged ⟨[], 0⟩ [("_id", Value.vId 0), ("a", Value.vInt 2)] = [] := by
  constructor
  · exact ((c1_changed_fields_characterization
      ⟨[[("a", Value.vInt 1), ("_id", Value.vId 0)]], 1⟩
      [("_id", Value.vId 0), ("a", Value.vInt 2)]).1 "a" (Value.vInt 2)).mpr
      ⟨by decide, by decide, [("a", Value.vInt 1), ("_id", Value.vId 0)], by decide,
        Value.vInt 1, by decide, by decide⟩
  · exact (c1_changed_fields_characterization ⟨[], 0⟩
      [("_id", Value.vId 0), ("a", Value.vInt 2)]).2.1 (by decide)

/-- C2: saving an instance with null identity, on a type with a live backing
collection and passing any configured validation, inserts all current fields
with the identity excluded from the payload, assigns the store-generated
identity onto the instance (non-null afterwards), returns the instance, and
`is_saved` is true afterwards. -/
theorem c2_save_insert_assigns_identity (schema? : Option Schema)
    (c : Collection) (doc : Fields) (hval : validatesOk schema? doc)
    (hid : docId doc = Value.vNull) (hwf : c.wfb = true)
    (hnd : fkeysNodup doc) :
    saveWithClass (some c) schema? doc =
      (.ok (fset (fdel doc "_id") "_id" (Value.vId c.nextId)),
       some ⟨c.docs ++ [fset (fdel doc "_id") "_id" (Value.vId c.nextId)],
         c.nextId + 1⟩)
    ∧ docId (fset (fdel doc "_id") "_id" (Value.vId c.nextId)) = Value.vId c.nextId
    ∧ Value.vId c.nextId ≠ Value.vNull
    ∧ is_saved
        ⟨c.docs ++ [fset (fdel doc "_id") "_id" (Value.vId c.nextId)], c.nextId + 1⟩
        (fset (fdel doc "_id") "_id" (Value.vId c.nextId)) = true := by
  refine ⟨?_, ?_, by simp, is_saved_after_insert c doc hwf hnd⟩
  · simp only [saveWithClass]
    rw [save_insert_path schema? c doc hval hid]
  · unfold docId pyGet
    rw [fget?_fset_self]
    rfl

/-- C2 witness at a concrete unsaved document and empty collection. -/
theorem c2_witness :
    saveWithClass (some ⟨[], 0⟩) none [("_id", Value.vNull), ("a", Value.vInt 1)] =
      (.ok [("a", Value.vInt 1), ("_id", Value.vId 0)],
       some ⟨[[("a", Value.vInt 1), ("_id", Value.vId 0)]], 1⟩)
    ∧ is_saved ⟨[[("a", Value.vInt 1), ("_id", Value.vId 0)]], 1⟩
        [("a", Value.vInt 1), ("_id", Value.vId 0)] = true := by
  have h := c2_save_insert_assigns_identity none ⟨[], 0⟩
    [("_id", Value.vNull), ("a", Value.vInt 1)]
    (fun sch hsch => by cases hsch) rfl rfl (by decide)
  exact ⟨h.1, h.2.2.2⟩

/-- C3: with a live collection, validation passing, non-null identity and an
empty changed-field set, `save` performs no store mutation — the collection
afterwards is the very collection passed in — and returns the instance
successfully (so repeating it can never fail or alter stored state). -/
theorem c3_save_noop_when_unchanged (schema? : Option Schema) (c : Collection)
    (doc : Fields) (hval : validatesOk schema? doc)
    (hid : isNull (docId doc) = false) (hch : hasChanged c doc = []) :
    saveWithClass (some c) schema? doc = (.ok doc, some c) := by
  simp only [saveWithClass]
  rw [save_noop_of_unchanged schema? c doc hval hid hch]

/-- C3 witness: a persisted document equal to its stored record. -/
theorem c3_witness :
    saveWithClass (some ⟨[[("a", Value.vInt 1), ("_id", Value.vId 0)]], 1⟩) none
      [("_id", Value.vId 0), ("a", Value.vInt 1)]
      = (.ok [("_id", Value.vId 0), ("a", Value.vInt 1)],
         some ⟨[[("a", Value.vInt 1), ("_id", Value.vId 0)]], 1⟩) :=
  c3_save_noop_when_unchanged none ⟨[[("a", Value.vInt 1), ("_id", Value.vId 0)]], 1⟩
    [("_id", Value.vId 0), ("a", Value.vInt 1)]
    (fun sch hsch => by cases hsch) (by decide) (by decide)

/-- C4 counterexample: identity `vId 7` matches no record in the empty
store, yet `save` returns the instance successfully — the claimed
missing-document error is not raised. -/
theorem c4_counterexample :
    save none ⟨[], 0⟩ [("_id", Value.vId 7), ("a", Value.vInt 1)] =
      (.ok [("_id", Value.vId 7), ("a", Value.vInt 1)], ⟨[], 0⟩)
    ∧ (save none ⟨[], 0⟩ [("_id", Value.vId 7), ("a", Value.vInt 1)]).1 ≠
        .error (.missingDocument (Value.vId 7)) :=
  ⟨by decide, by decide⟩

/-- C4 (amended): when the non-null identity matches no stored record,
every per-field re-read of `_has_changed` comes back empty, so the computed
change set is empty and `save` silently returns the instance with no store
mutation and no error.  (The missing-document `ValueError` of the source can
only fire when a non-empty change set is computed and the record disappears
between the re-read and `update_one`, which a sequential store cannot do.) -/
theorem c4_save_missing_record_is_silent_noop (schema? : Option Schema)
    (c : Collection) (doc : Fields) (hval : validatesOk schema? doc)
    (hid : isNull (docId doc) = false)
    (hfind : find_one c [("_id", docId doc)] = none) :
    saveWithClass (some c) schema? doc = (.ok doc, some c) := by
  simp only [saveWithClass]
  rw [save_noop_of_unchanged schema? c doc hval hid
    (hasChanged_eq_nil_of_find_none c doc hfind)]

/-- C4 witness: concrete dangling-identity document over the empty store. -/
theorem c4_witness :
    saveWithClass (some ⟨[], 0⟩) none [("_id", Value.vId 7), ("b", Value.vStr "x")]
      = (.ok [("_id", Value.vId 7), ("b", Value.vStr "x")], some ⟨[], 0⟩) :=
  c4_save_missing_record_is_silent_noop none ⟨[], 0⟩
    [("_id", Value.vId 7), ("b", Value.vStr "x")]
    (fun sch hsch => by cases hsch) (by decide) (by decide)

theorem fieldCheck_validator_rejects (name : String) (fs : FieldSchema)
    (v : Value) (f : Value → Bool) (hf : fs.validator? = some f)
    (hrej : f v = false) :
    fieldCheck name fs v = .error (.fieldInvalid name) := by
  unfold fieldCheck
  rw [hf]
  simp [hrej]

theorem fieldCheck_required_missing (name : String) (fs : FieldSchema)
    (v : Value) (hpass : ∀ f, fs.validator? = some f → f v = true)
    (hreq : fs.required = true) (hnull : isNull v = true) :
    fieldCheck name fs v = .error (.requiredMissing name) := by
  have hrt : requiredTypeCheck name fs v = .error (.requiredMissing name) := by
    unfold requiredTypeCheck
    rw [hreq, hnull]
    simp
  unfold fieldCheck
  cases hv : fs.validator? with
  | none => exact hrt
  | some f => simp [hpass f hv, hrt]

theorem fieldCheck_type_mismatch (name : String) (fs : FieldSchema)
    (v : Value) (t : PyType) (hpass : ∀ f, fs.validator? = some f → f v = true)
    (hnn : isNull v = false) (ht : fs.type? = some t)
    (hmis : isinstance v t = false) :
    fieldCheck name fs v = .error (.typeMismatch name) := by
  have hrt : requiredTypeCheck name fs v = .error (.typeMismatch name) := by
    unfold requiredTypeCheck
    rw [hnn, ht]
    simp [hmis]
  unfold fieldCheck
  cases hv : fs.validator? with
  | none => exact hrt
  | some f => simp [hpass f hv, hrt]

theorem validateFields_ok_iff (sch : Schema) (doc : Fields) :
    validateFields sch doc = .ok () ↔
      ∀ p ∈ sch, fieldCheck p.1 p.2 (pyGet doc p.1) = .ok () := by
  induction sch with
  | nil => simp [validateFields]
  | cons p rest ih =>
    obtain ⟨name, fs⟩ := p
    unfold validateFields
    cases hfc : fieldCheck name fs (pyGet doc name) with
    | ok u =>
      cases u
      simp [hfc, ih]
    | error e => simp [hfc]

theorem checkUnknown_ok_iff (sch : Schema) (doc : Fields) :
    checkUnknown sch doc = .ok () ↔
      ∀ q ∈ doc, q.1 ≠ "_id" → schemaHasKey sch q.1 = true := by
  induction doc with
  | nil => simp [checkUnknown]
  | cons q rest ih =>
    obtain ⟨k, v⟩ := q
    unfold checkUnknown
    by_cases hk : k = "_id"
    · simp [hk, ih]
    · by_cases hs : schemaHasKey sch k = true
      · simp [hk, hs, ih]
      · simp [hk, hs]

theorem checkUnknown_error_shape (sch : Schema) (doc : Fields) (e : MErr)
    (h : checkUnknown sch doc = .error e) :
    ∃ k, e = .unknownField k ∧ k ≠ "_id" ∧ schemaHasKey sch k = false ∧
      ∃ v, (k, v) ∈ doc := by
  induction doc with
  | nil => simp [checkUnknown] at h
  | cons q rest ih =>
    obtain ⟨k, v⟩ := q
    unfold checkUnknown at h
    by_cases hcond : (k != "_id" && !(schemaHasKey sch k)) = true
    · rw [if_pos hcond] at h
      rw [Bool.and_eq_true] at hcond
      injection h with he
      exact ⟨k, he.symm, by simpa using hcond.1, by simpa using hcond.2,
        v, List.mem_cons_self _ _⟩
    · rw [if_neg hcond] at h
      obtain ⟨k', he, hk', hs', w, hw⟩ := ih h
      exact ⟨k', he, hk', hs', w, List.mem_cons_of_mem _ hw⟩

/-- C5: `_validate` checks each schema-declared field in order — custom
validator first (applied to the `.get`-read value, with an absent field read
as null), then the required/non-null check, then the runtime-type check for
non-null values — each failure an error naming the field; and validation
succeeds exactly when every schema rule passes and every instance field
other than `_id` is a schema key (closed field set), a violation of the
latter raising an unknown-field error naming that field. -/
theorem c5_validate_characterization (sch : Schema) (doc : Fields) :
    (∀ name fs v f, FieldSchema.validator? fs = some f → f v = false →
        fieldCheck name fs v = .error (.fieldInvalid name))
    ∧ (∀ name fs v, (∀ f, FieldSchema.validator? fs = some f → f v = true) →
        FieldSchema.required fs = true → isNull v = true →
        fieldCheck name fs v = .error (.requiredMissing name))
    ∧ (∀ name fs v t, (∀ f, FieldSchema.validator? fs = some f → f v = true) →
        isNull v = false → FieldSchema.type? fs = some t → isinstance v t = false →
        fieldCheck name fs v = .error (.typeMismatch name))
    ∧ (validateFields sch doc = .ok () → validate sch doc = checkUnknown sch doc)
    ∧ (∀ e, checkUnknown sch doc = .error e →
        ∃ k, e = .unknownField k ∧ k ≠ "_id" ∧ schemaHasKey sch k = false ∧
          ∃ v, (k, v) ∈ doc)
    ∧ (validate sch doc = .ok () ↔
        (∀ p ∈ sch, fieldCheck p.1 p.2 (pyGet doc p.1) = .ok ())
        ∧ ∀ q ∈ doc, q.1 ≠ "_id" → schemaHasKey sch q.1 = true) := by
  refine ⟨fieldCheck_validator_rejects, fieldCheck_required_missing,
    fieldCheck_type_mismatch, ?_, checkUnknown_error_shape sch doc, ?_⟩
  · intro hok
    unfold validate
    rw [hok]
  · unfold validate
    cases hvf : validateFields sch doc with
    | ok u =>
      cases u
      rw [checkUnknown_ok_iff]
      exact ⟨fun h => ⟨(validateFields_ok_iff sch doc).mp hvf, h⟩, fun h => h.2⟩
    | error e =>
      simp only []
      constructor
      · intro h
        cases h
      · intro h
        exact absurd ((validateFields_ok_iff sch doc).mpr h.1)
          (by simp [hvf])

/-- C5 witness: the validator fires before the required check on a rejected
value, and a well-formed document passes the whole validation. -/
theorem c5_witness :
    fieldCheck "age" ⟨some PyType.tInt, true, some (fun v => Value.beq v (Value.vInt 0))⟩
      (Value.vInt 1) = .error (.fieldInvalid "age")
    ∧ validate [("age", ⟨some PyType.tInt, true, none⟩)]
        [("_id", Value.vNull), ("age", Value.vInt 3)] = .ok () := by
  constructor
  · exact (c5_validate_characterization [] []).1 "age"
      ⟨some PyType.tInt, true, some (fun v => Value.beq v (Value.vInt 0))⟩
      (Value.vInt 1) (fun v => Value.beq v (Value.vInt 0)) rfl (by decide)
  · refine ((c5_validate_characterization
      [("age", ⟨some PyType.tInt, true, none⟩)]
      [("_id", Value.vNull), ("age", Value.vInt 3)]).2.2.2.2.2).mpr ⟨?_, ?_⟩
    · intro p hp
      rcases List.mem_singleton.mp hp with rfl
      decide
    · intro q hq
      rcases List.mem_cons.mp hq with rfl | hq2
      · intro hq1
        exact absurd rfl hq1
      · rcases List.mem_singleton.mp hq2 with rfl
        intro _
        decide

/-- C6: when the declared schema rejects the instance, `save` raises that
validation error before any store operation — the backing collection comes
back exactly as it was, unmutated. -/
theorem c6_validation_failure_no_mutation (sch : Schema) (c : Collection)
    (doc : Fields) (e : MErr) (hfail : validate sch doc = .error e) :
    saveWithClass (some c) (some sch) doc = (.error e, some c) := by
  simp [saveWithClass, save, hfail]

/-- C6 witness: a missing required field aborts `save` with the
missing-required error and the store untouched. -/
theorem c6_witness :
    saveWithClass (some ⟨[], 0⟩)
      (some [("name", ⟨some PyType.tStr, true, none⟩)]) [("_id", Value.vNull)]
      = (.error (.requiredMissing "name"), some ⟨[], 0⟩) :=
  c6_validation_failure_no_mutation [("name", ⟨some PyType.tStr, true, none⟩)]
    ⟨[], 0⟩ [("_id", Value.vNull)] (.requiredMissing "name") (by decide)

theorem initDbGo_spec {ε : Type} (att : Nat → Option ε) (delay : Nat) :
    ∀ rem i, 1 ≤ rem →
      (initDbGo att delay i rem).attempts ≤ rem
      ∧ 1 ≤ (initDbGo att delay i rem).attempts
      ∧ (initDbGo att delay i rem).sleeps =
          (List.range ((initDbGo att delay i rem).attempts - 1)).map
            (fun j => delay ^ (i + j))
      ∧ ((∀ j, j < rem → (att (i + j)).isSome) →
          ∃ e, att (i + (rem - 1)) = some e
            ∧ (initDbGo att delay i rem).outcome = .connError e
            ∧ (initDbGo att delay i rem).attempts = rem) := by
  intro rem
  induction rem with
  | zero => intro i h; exact absurd h (by omega)
  | succ rem ih =>
    intro i _
    cases hatt : att i with
    | none =>
      simp only [initDbGo, hatt]
      refine ⟨by omega, by omega, by simp, ?_⟩
      intro hall
      have h0 := hall 0 (by omega)
      rw [Nat.add_zero, hatt] at h0
      simp at h0
    | some e =>
      by_cases hrem : rem = 0
      · subst hrem
        simp only [initDbGo, hatt]
        refine ⟨by simp, by simp, by simp, ?_⟩
        intro _
        exact ⟨e, by simpa using hatt, by simp, by simp⟩
      · obtain ⟨ih1, ih2, ih3, ih4⟩ := ih (i + 1) (Nat.one_le_iff_ne_zero.mpr hrem)
        simp only [initDbGo, hatt, show (rem == 0) = false by simpa using hrem,
          Bool.false_eq_true, if_false]
        refine ⟨by simpa using ih1, by omega, ?_, ?_⟩
        · show delay ^ i :: (initDbGo att delay (i + 1) rem).sleeps =
            (List.range ((initDbGo att delay (i + 1) rem).attempts + 1 - 1)).map
              (fun j => delay ^ (i + j))
          rw [ih3, Nat.add_sub_cancel,
            show (initDbGo att delay (i + 1) rem).attempts =
              ((initDbGo att delay (i + 1) rem).attempts - 1) + 1 by omega,
            List.range_succ_eq_map, List.map_cons, List.map_map]
          rw [Nat.add_sub_cancel]
          congr 1
          apply List.map_congr_left
          intro j hj
          simp only [Function.comp_apply]
          congr 1
          omega
        · intro hall
          have hall' : ∀ j, j < rem → (att (i + 1 + j)).isSome := by
            intro j hj
            have hx := hall (j + 1) (by omega)
            rwa [show i + (j + 1) = i + 1 + j by omega] at hx
          obtain ⟨e', he', hout, hattn⟩ := ih4 hall'
          refine ⟨e', ?_, by simpa using hout, by simpa using by omega⟩
          rwa [show i + (rem + 1 - 1) = i + 1 + (rem - 1) by omega]

/-- C7: `init_db` makes at most `retries` connection attempts, sleeping
`retry_delay ** attemptIndex` seconds between consecutive failed attempts
(attempt index starting at 0, so the sleeps are `delay^0, delay^1, ...` —
1s, 2s, 4s, ... for the default base 2), and when every attempt fails it
raises the connection error carrying the last low-level failure as its
cause. -/
theorem c7_init_db_retry {ε : Type} (att : Nat → Option ε)
    (retries delay : Nat) (h : 1 ≤ retries) :
    (init_db att retries delay).attempts ≤ retries
    ∧ (init_db att retries delay).sleeps =
        (List.range ((init_db att retries delay).attempts - 1)).map
          (fun j => delay ^ j)
    ∧ ((∀ i, i < retries → (att i).isSome) →
        ∃ e, att (retries - 1) = some e
          ∧ (init_db att retries delay).outcome = .connError e
          ∧ (init_db att retries delay).attempts = retries) := by
  unfold init_db
  obtain ⟨h1, _, h3, h4⟩ := initDbGo_spec att delay retries 0 h
  refine ⟨h1, ?_, ?_⟩
  · rw [h3]
    apply List.map_congr_left
    intro j hj
    rw [Nat.zero_add]
  · intro hall
    have hall' : ∀ j, j < retries → (att (0 + j)).isSome := by
      intro j hj
      rw [Nat.zero_add]
      exact hall j hj
    obtain ⟨e, he, hout, hatt⟩ := h4 hall'
    exact ⟨e, by rwa [Nat.zero_add] at he, hout, hatt⟩

/-- C7 witness: three permanently failing attempts with base delay 2 sleep
1 and 2 seconds between attempts and end in a connection error caused by the
last (third) failure. -/
theorem c7_witness :
    (init_db (fun i => some i) 3 2).attempts ≤ 3
    ∧ (init_db (fun i => some i) 3 2).sleeps = [1, 2]
    ∧ (init_db (fun i => some i) 3 2).outcome = ConnOutcome.connError 2 := by
  obtain ⟨h1, h2, h3⟩ := c7_init_db_retry (fun i => some i) 3 2 (by omega)
  obtain ⟨e, he, hout, hatt⟩ := h3 (fun i _ => rfl)
  refine ⟨h1, ?_, ?_⟩
  · rw [h2, hatt]
    rfl
  · have he2 : e = 2 := by
      injection he with hx
      exact hx.symm
    rwa [he2] at hout

/-- C8: `Document.delete` computes the unwrapped filter `d` from a single
dict-valued keyword exactly as `find` does, but then passes the RAW keyword
dict to `delete_many`, ignoring `d`.  Concretely: with the single keyword
`q={'name': 'Alice'}`, `find` returns the stored Alice record (filter
`{'name': 'Alice'}`), while `delete` filters on `{'q': {...}}` and removes
nothing — so `delete` does not remove what `find` returns. -/
theorem c8_delete_ignores_map_passthrough :
    queryFilter [("q", Value.vDoc [("name", Value.vStr "Alice")])]
      = [("name", Value.vStr "Alice")]
    ∧ findRecords ⟨[[("name", Value.vStr "Alice"), ("_id", Value.vId 0)]], 1⟩
        [("q", Value.vDoc [("name", Value.vStr "Alice")])]
      = [[("name", Value.vStr "Alice"), ("_id", Value.vId 0)]]
    ∧ deleteMatching ⟨[[("name", Value.vStr "Alice"), ("_id", Value.vId 0)]], 1⟩
        [("q", Value.vDoc [("name", Value.vStr "Alice")])]
      = ⟨[[("name", Value.vStr "Alice"), ("_id", Value.vId 0)]], 1⟩ :=
  ⟨rfl, by decide, by decide⟩

/-- C9: for a well-formed (24 hex characters) identity string that matches
no stored record, `get_by_id` returns a freshly constructed instance whose
only field is a null `_id` — not `None`; `None` is returned exactly when the
identity string is malformed (`bson.errors.InvalidId`). -/
theorem c9_get_by_id (c : Collection) (s : String) :
    (isValidObjectId s = true →
      find_one c [("_id", Value.vId (hexToNat s))] = none →
      get_by_id c s = some [("_id", Value.vNull)])
    ∧ (isValidObjectId s = false → get_by_id c s = none) := by
  constructor
  · intro hv hf
    unfold get_by_id
    rw [if_pos hv, hf]
    rfl
  · intro hv
    unfold get_by_id
    simp [hv]

/-- C9 witness: a valid ObjectId string over the empty store yields the
empty instance, and a malformed string yields null. -/
theorem c9_witness :
    get_by_id ⟨[], 0⟩ "0123456789abcdef01234567" = some [("_id", Value.vNull)]
    ∧ get_by_id ⟨[], 0⟩ "zzz" = none := by
  constructor
  · exact (c9_get_by_id ⟨[], 0⟩ "0123456789abcdef01234567").1 (by decide) rfl
  · exact (c9_get_by_id ⟨[], 0⟩ "zzz").2 (by decide)

theorem docId_docInit_fresh (p : Fields) (hid : fget? p "_id" = none) :
    docId (docInit (some p) []) = Value.vNull := by
  have habs : ∀ q ∈ p, q.1 ≠ "_id" := (fget?_eq_none_iff p "_id").mp hid
  show (fget? (docInit (some p) []) "_id").getD Value.vNull = Value.vNull
  have hrep : docInit (some p) [] = fupdate [("_id", Value.vNull)] p := rfl
  rw [hrep, fget?_fupdate_absent _ p "_id" habs]
  rfl

theorem save_fresh_item (schema? : Option Schema) (c : Collection)
    (p : Fields) (hid : fget? p "_id" = none)
    (hval : validatesOk schema? (docInit (some p) [])) :
    save schema? c (docInit (some p) []) =
      (.ok (fset (fdel (docInit (some p) []) "_id") "_id" (Value.vId c.nextId)),
       (insert_one c (fdel (docInit (some p) []) "_id")).1) := by
  rw [save_insert_path schema? c (docInit (some p) []) hval
    (docId_docInit_fresh p hid)]
  rfl

/-- C10: `insert_many` constructs and saves each item of the list in order,
one insert per (id-less) item; when validation rejects the k-th item the
loop aborts with that error and the first k-1 items remain inserted in the
collection — no atomicity, no rollback. -/
theorem c10_insert_many_no_rollback (schema? : Option Schema) :
    (∀ c items,
      (∀ p ∈ items, fget? p "_id" = none ∧ validatesOk schema? (docInit (some p) [])) →
      insert_many schema? c items = (.ok (), insertPlain c items))
    ∧ (∀ c pre bad rest sch e,
      (∀ p ∈ pre, fget? p "_id" = none ∧ validatesOk schema? (docInit (some p) [])) →
      schema? = some sch →
      validate sch (docInit (some bad) []) = .error e →
      insert_many schema? c (pre ++ bad :: rest) = (.error e, insertPlain c pre)) := by
  constructor
  · intro c items h
    induction items generalizing c with
    | nil => rfl
    | cons p rest ih =>
      have hp := h p (List.mem_cons_self _ _)
      have hrest : ∀ q ∈ rest,
          fget? q "_id" = none ∧ validatesOk schema? (docInit (some q) []) :=
        fun q hq => h q (List.mem_cons_of_mem _ hq)
      simp only [insert_many, save_fresh_item schema? c p hp.1 hp.2]
      exact ih (insert_one c (fdel (docInit (some p) []) "_id")).1 hrest
  · intro c pre bad rest sch e hpre hsch hbad
    induction pre generalizing c with
    | nil =>
      have hsave : save schema? c (docInit (some bad) []) = (.error e, c) := by
        subst hsch
        simp [save, hbad]
      simp only [List.nil_append, insert_many, hsave]
      rfl
    | cons p pre' ih =>
      have hp := hpre p (List.mem_cons_self _ _)
      have hpre' : ∀ q ∈ pre',
          fget? q "_id" = none ∧ validatesOk schema? (docInit (some q) []) :=
        fun q hq => hpre q (List.mem_cons_of_mem _ hq)
      simp only [List.cons_append, insert_many,
        save_fresh_item schema? c p hp.1 hp.2]
      exact ih (insert_one c (fdel (docInit (some p) []) "_id")).1 hpre'

/-- C10 witness: a two-item batch whose second item fails the required-field
check leaves the first item inserted and aborts with the validation error. -/
theorem c10_witness :
    insert_many (some [("name", ⟨some PyType.tStr, true, none⟩)]) ⟨[], 0⟩
      [[("name", Value.vStr "A")], [("oops", Value.vInt 1)]]
      = (.error (.requiredMissing "name"),
         ⟨[[("name", Value.vStr "A"), ("_id", Value.vId 0)]], 1⟩) := by
  have h := (c10_insert_many_no_rollback
      (some [("name", ⟨some PyType.tStr, true, none⟩)])).2
    ⟨[], 0⟩ [[("name", Value.vStr "A")]] [("oops", Value.vInt 1)] []
    [("name", ⟨some PyType.tStr, true, none⟩)] (.requiredMissing "name")
    ?_ rfl (by decide)
  · exact h
  · intro p hp
    rcases List.mem_singleton.mp hp with rfl
    refine ⟨by decide, ?_⟩
    intro sch hsch
    injection hsch with hs
    subst hs
    decide

end MongoDoc
